import Mathlib

/-!
Verification of the gocw side-channel acquisition stack against its design
specification. The Go sources are shallowly embedded: machine integers become
Nat (bytes carry an explicit bound of 256 where it matters), fallible code
returns Except or Option, device interaction is made explicit by passing the
bytes the device answers as arguments, and the two busy-wait loops are given
explicit fuel. Power measurements are modelled as rationals: every decoded
sample is of the form w/1024 - 1/2 with w < 1024, a value that binary64
floating point represents exactly, so rational equality coincides with the
float64 equality of the Go code.
-/

namespace Gocw

/-- Decidable equality for Except outcomes, used to evaluate the models on
concrete inputs. -/
instance {ε α : Type _} [DecidableEq ε] [DecidableEq α] : DecidableEq (Except ε α) := fun
  | .error e, .error f =>
      decidable_of_iff (e = f) ⟨fun h => by rw [h], fun h => by injection h⟩
  | .error _, .ok _ => isFalse fun h => Except.noConfusion h
  | .ok _, .error _ => isFalse fun h => Except.noConfusion h
  | .ok a, .ok b =>
      decidable_of_iff (a = b) ⟨fun h => by rw [h], fun h => by injection h⟩

/-! ### Capture data model (viewer/server.go) -/

/-- One trace, as in viewer/server.go: key, plaintext, ciphertext (byte lists)
and the decoded power measurements. -/
structure Trace where
  key : List Nat
  pt : List Nat
  ct : List Nat
  pm : List ℚ
  deriving DecidableEq, Repr

/-- A capture is an ordered list of traces. -/
abbrev Capture := List Trace

/-! ### Base64 codec, modelling encoding/base64 StdEncoding, which Go
encoding/json uses for []byte fields. -/

/-- The standard base64 alphabet. -/
def b64Alphabet : List Char :=
  "ABCDEFGHIJKLMNOPQRSTUVWXYZabcdefghijklmnopqrstuvwxyz0123456789+/".toList

/-- Character for a 6-bit group. -/
def b64Char (n : Nat) : Char := b64Alphabet.getD n '?'

/-- Index of a base64 character in the alphabet, none if absent. -/
def b64Val (c : Char) : Option Nat := b64Alphabet.indexOf? c

/-- Base64 encoding of a byte list, three bytes to four characters, padded
with = as Go StdEncoding does. -/
def b64Enc : List Nat → List Char
  | b1 :: b2 :: b3 :: rest =>
      b64Char (b1 / 4) :: b64Char ((b1 % 4) * 16 + b2 / 16) ::
      b64Char ((b2 % 16) * 4 + b3 / 64) :: b64Char (b3 % 64) :: b64Enc rest
  | [b1, b2] =>
      [b64Char (b1 / 4), b64Char ((b1 % 4) * 16 + b2 / 16), b64Char ((b2 % 16) * 4), '=']
  | [b1] => [b64Char (b1 / 4), b64Char ((b1 % 4) * 16), '=', '=']
  | [] => []

/-- Base64 decoding, four characters to three bytes, honouring = padding in
the final group. -/
def b64Dec : List Char → Option (List Nat)
  | [] => some []
  | c1 :: c2 :: c3 :: c4 :: rest =>
      match b64Val c1, b64Val c2 with
      | some s1, some s2 =>
          if c3 = '=' then
            if c4 = '=' ∧ rest = [] then some [s1 * 4 + s2 / 16] else none
          else
            match b64Val c3 with
            | some s3 =>
                if c4 = '=' then
                  if rest = [] then some [s1 * 4 + s2 / 16, (s2 % 16) * 16 + s3 / 4]
                  else none
                else
                  match b64Val c4 with
                  | some s4 =>
                      (b64Dec rest).map
                        (fun tail => (s1 * 4 + s2 / 16) :: ((s2 % 16) * 16 + s3 / 4) ::
                          ((s3 % 4) * 64 + s4) :: tail)
                  | none => none
            | none => none
      | _, _ => none
  | _ => none

/-! ### JSON document model.

SaveIo runs a JSON encoder into a gzip writer, LoadCaptureIo a JSON decoder
out of a gzip reader. The gzip layer is a lossless byte transport and the JSON
text layer is an injective rendering of the document tree, so both are
modelled at the document-tree level: SaveIo is the tree the encoder emits and
LoadCaptureIo consumes that tree. Numbers in the tree carry the measurement
value itself; Go prints a float64 with strconv shortest formatting, which
parses back to the identical float64, and every measurement is an exact
binary64 value (see the module comment), so the number node is exact. -/

/-- A JSON value. Field names are kept as strings, numbers as rationals. -/
inductive Jval where
  | str (s : List Char)
  | num (q : ℚ)
  | arr (elems : List Jval)
  | obj (fields : List (String × Jval))

/-- JSON encoding of one trace: the record {k, pt, ct, pm} with byte fields
base64-encoded, as Go encoding/json marshals the Trace struct tags. -/
def encodeTrace (t : Trace) : Jval :=
  .obj [("k", .str (b64Enc t.key)), ("pt", .str (b64Enc t.pt)),
        ("ct", .str (b64Enc t.ct)), ("pm", .arr (t.pm.map .num))]

/-- JSON encoding of a capture: the array of its trace records. SaveIo is this
encoding pushed through the gzip byte transport. -/
def SaveIo (c : Capture) : Jval := .arr (List.map encodeTrace c)

/-- Decode a list of JSON numbers. -/
def decodeNums : List Jval → Option (List ℚ)
  | [] => some []
  | .num q :: rest => (decodeNums rest).map (q :: ·)
  | _ => none

/-- Decode one trace record. -/
def decodeTrace : Jval → Option Trace
  | .obj [("k", .str k), ("pt", .str pt), ("ct", .str ct), ("pm", .arr pm)] =>
      match b64Dec k, b64Dec pt, b64Dec ct, decodeNums pm with
      | some k1, some p1, some c1, some m1 => some ⟨k1, p1, c1, m1⟩
      | _, _, _, _ => none
  | _ => none

/-- Decode a list of trace records. -/
def decodeTraces : List Jval → Option (List Trace)
  | [] => some []
  | j :: rest =>
      match decodeTrace j, decodeTraces rest with
      | some t, some ts => some (t :: ts)
      | _, _ => none

/-- LoadCaptureIo pulls the JSON document back out of the gzip transport and
decodes the array of trace records. -/
def LoadCaptureIo : Jval → Option Capture
  | .arr elems => decodeTraces elems
  | _ => none

/-! ### Memory protocol (external memory interface source file).

The USB transfers a read or write performs are recorded as a transcript.
Transfer outcomes themselves (device side errors) are orthogonal to the
framing and verification logic under proof and are not modelled: the
transcript is what the code issues, the read-back bytes are an input. -/

/-- Vendor request codes, values as in usb_device.go. -/
def reqMemReadBulk : Nat := 0x10
def reqMemWriteBulk : Nat := 0x11
def reqMemReadCtrl : Nat := 0x12
def reqMemWriteCtrl : Nat := 0x13
def reqFpgaStatus : Nat := 0x15
def reqFpgaProgram : Nat := 0x16

/-- One USB operation issued by the memory protocol. -/
inductive UsbOp where
  | controlOut (req : Nat) (data : List Nat)
  | controlIn (req : Nat) (len : Nat)
  | bulkIn (len : Nat)
  | bulkOut (data : List Nat)
  deriving DecidableEq, Repr

/-- Little-endian bytes of a 32-bit value, as binary.Write LittleEndian emits. -/
def le32 (n : Nat) : List Nat :=
  [n % 256, n / 256 % 256, n / 65536 % 256, n / 16777216 % 256]

/-- The 8-byte address block header {Dlen : u32, Addr : u32}. -/
def addrBlock (dlen addr : Nat) : List Nat := le32 dlen ++ le32 addr

/-- Transcript of doRead: header via control-OUT on the chosen request code,
then the payload via a second control-IN (control framing, length below 48)
or via the bulk pipe (bulk framing). -/
def doReadOps (addr len : Nat) : List UsbOp :=
  if len < 48 then
    [.controlOut reqMemReadCtrl (addrBlock len addr), .controlIn reqMemReadCtrl len]
  else
    [.controlOut reqMemReadBulk (addrBlock len addr), .bulkIn len]

/-- Memory protocol errors. -/
inductive MemError where
  | maskLength (maskLen dataLen : Nat)
  | verification
  deriving DecidableEq, Repr

/-- The verification step of doWrite: the freshly read bytes and a copy of the
written bytes are masked byte-for-byte when a mask is supplied, then compared. -/
def verifyCheck (data actual : List Nat) (mask : Option (List Nat)) :
    Except MemError Unit :=
  match mask with
  | none => if data = actual then .ok () else .error .verification
  | some m =>
      if m.length = data.length then
        if List.zipWith Nat.land data m = List.zipWith Nat.land actual m then .ok ()
        else .error .verification
      else .error (.maskLength m.length data.length)

/-- Transcript and outcome of doWrite. For control framing the header and the
payload travel in one control-OUT; for bulk framing the header goes out via
control-OUT and the payload via the bulk pipe. With validate set the same
address and length are re-read (readBack being the bytes the device answers)
and checked through verifyCheck. -/
def doWriteRun (addr : Nat) (data : List Nat) (validate : Bool)
    (mask : Option (List Nat)) (readBack : List Nat) :
    List UsbOp × Except MemError Unit :=
  let hdr := addrBlock data.length addr
  let ops :=
    if data.length < 48 then [.controlOut reqMemWriteCtrl (hdr ++ data)]
    else [.controlOut reqMemWriteBulk hdr, .bulkOut data]
  if validate then (ops ++ doReadOps addr data.length, verifyCheck data readBack mask)
  else (ops, .ok ())

/-! ### FPGA loader (fpga.go).

Program streams the bitstream and then runs the retry loop
  for attempts := 0; attempts < 5; attempts-- { ... }
whose counter moves away from the bound. The loop is embedded with explicit
fuel, the device being a function from poll index to the (error-free) result
of IsProgrammed, so that its non-termination is provable. -/

/-- Outcome of the poll loop: how many polls ran until the ready poll. -/
inductive PollExit where
  | ready (polls : Nat)
  | notReady
  deriving DecidableEq, Repr

/-- The poll loop of Fpga.Program. attempts is the Int counter, k the index of
the next poll, fuel bounds the observed iterations; none means the loop was
still running when the fuel ran out. -/
def programPollLoop (polls : Nat → Bool) : Int → Nat → Nat → Option PollExit
  | _, _, 0 => none
  | attempts, k, fuel + 1 =>
      if attempts < 5 then
        if polls k then some (.ready (k + 1))
        else programPollLoop polls (attempts - 1) (k + 1) fuel
      else some .notReady

/-- The poll phase of Fpga.Program as the code runs it: counter starts at 0. -/
def programPoll (polls : Nat → Bool) (fuel : Nat) : Option PollExit :=
  programPollLoop polls 0 0 fuel

/-! ### Clock-generator multiply/divide search (calcClkGenMulDiv in usart.go).

The Go function works on int with the running error held as float64. All
values reaching it are 32-bit register contents, so every candidate error
  |freq - (inpFreq*mul)/div|
is an integer below 2^53 that float64 represents exactly, and the float64
comparison agrees with comparison of the integer values; the 1e99 initial
bound exceeds every candidate, which the Option none state models. The
division (inpFreq*mul)/div is the Go integer division. -/

/-- Candidate error: distance from the target frequency to the integer
quotient inpFreq*mul/div. -/
def clkErr (freq inpFreq mul div : Nat) : Nat :=
  ((freq : Int) - ((inpFreq * mul) / div : Nat)).natAbs

/-- The divider bound: below 52 MHz the datasheet limit inpFreq / 0.5e6
(integer division), else 256. -/
def clkMaxDiv (inpFreq : Nat) : Nat :=
  if inpFreq < 52000000 then inpFreq / 500000 else 256

/-- The candidate pairs in loop order: mul from 2 while below 257, div from 1
while below maxDiv. -/
def clkCandidates (inpFreq : Nat) : List (Nat × Nat) :=
  (List.range' 2 255).flatMap fun mul =>
    (List.range' 1 (clkMaxDiv inpFreq - 1)).map fun div => (mul, div)

/-- One step of the search: keep the new pair exactly when its error is
strictly below the best so far (none = the 1e99 initial bound). -/
def clkStep (freq inpFreq : Nat) (acc : (Nat × Nat) × Option Nat) (p : Nat × Nat) :
    (Nat × Nat) × Option Nat :=
  let e := clkErr freq inpFreq p.1 p.2
  match acc.2 with
  | none => (p, some e)
  | some low => if e < low then (p, some e) else acc

/-- calcClkGenMulDiv: exhaustive search over the candidate pairs starting from
the zero pair and the 1e99 error bound. -/
def calcClkGenMulDiv (freq inpFreq : Nat) : Nat × Nat :=
  ((clkCandidates inpFreq).foldl (clkStep freq inpFreq) ((0, 0), none)).1

/-- Ascending-multiplier, ascending-divider order on candidate pairs. -/
def lexLt (p q : Nat × Nat) : Prop :=
  p.1 < q.1 ∨ (p.1 = q.1 ∧ p.2 < q.2)

instance (p q : Nat × Nat) : Decidable (lexLt p q) := by
  unfold lexLt; infer_instance

/-- The pair range the source actually searches: multiplier 2..256, divider
1..clkMaxDiv-1 (the divider loop bound is strict). -/
def clkInRange (inpFreq : Nat) (p : Nat × Nat) : Prop :=
  2 ≤ p.1 ∧ p.1 ≤ 256 ∧ 1 ≤ p.2 ∧ p.2 ≤ clkMaxDiv inpFreq - 1

instance (inpFreq : Nat) (p : Nat × Nat) : Decidable (clkInRange inpFreq p) := by
  unfold clkInRange; infer_instance

/-- Modelled from the spec: the divider bound the claim states,
min(256, inputFreq/0.5MHz) below 52 MHz, else 256. -/
def clkMaxDivClaim (inpFreq : Nat) : Nat :=
  if inpFreq < 52000000 then min 256 (inpFreq / 500000) else 256

/-- Modelled from the spec: the pair range the claim states, multiplier in
[2,256] and divider in [1, maxDivider] inclusive. -/
def clkInRangeClaim (inpFreq : Nat) (p : Nat × Nat) : Prop :=
  2 ≤ p.1 ∧ p.1 ≤ 256 ∧ 1 ≤ p.2 ∧ p.2 ≤ clkMaxDivClaim inpFreq

instance (inpFreq : Nat) (p : Nat × Nat) : Decidable (clkInRangeClaim inpFreq p) := by
  unfold clkInRangeClaim; infer_instance

/-- Invariant of the search fold: after the seen candidates, the accumulator
is untouched with nothing seen, or holds the first seen candidate of minimal
error. -/
def clkInv (freq inpFreq : Nat) (seen : List (Nat × Nat))
    (acc : (Nat × Nat) × Option Nat) : Prop :=
  match acc.2 with
  | none => seen = []
  | some low =>
      acc.1 ∈ seen ∧ clkErr freq inpFreq acc.1.1 acc.1.2 = low ∧
      (∀ q ∈ seen, low ≤ clkErr freq inpFreq q.1 q.2) ∧
      (∀ q ∈ seen, clkErr freq inpFreq q.1 q.2 = low → acc.1 = q ∨ lexLt acc.1 q)

/-! ### ADC trace decode (ProcessTraceData in usart.go). -/

/-- Errors latched in the sticky error field of the ADC controller. Each
constructor stands for one distinct fmt.Errorf message of the source. -/
inductive AdcError where
  | ioFailure
  | badDataLength (n : Nat)
  | badSyncByte (b : Nat)
  | invalidGain (g : Nat)
  | samplesOutsideLimit (samples limit : Nat)
  deriving DecidableEq, Repr

/-- Big-endian 32-bit words from the byte stream: groups of four consecutive
bytes while at least four bytes remain, mirroring the loop bound i < len-3;
a shorter tail is dropped. -/
def beWords : List Nat → List Nat
  | b0 :: b1 :: b2 :: b3 :: rest =>
      (((b0 * 256 + b1) * 256 + b2) * 256 + b3) :: beWords rest
  | _ => []

/-- The three 10-bit samples of a packed word, low bits first. -/
def sampleVal (w : Nat) : ℚ := (w : ℚ) / 1024 - 1 / 2
def m1 (w : Nat) : ℚ := sampleVal (w % 1024)
def m2 (w : Nat) : ℚ := sampleVal (w / 1024 % 1024)
def m3 (w : Nat) : ℚ := sampleVal (w / 1048576 % 1024)

/-- The trigger-alignment tag, bits 30 and 31. -/
def trigTag (w : Nat) : Nat := w / 1073741824

/-- The word loop of ProcessTraceData. Until the trigger is found, a word
tagged 3 is skipped; the first word with a lower tag contributes, in the
order the source appends them, m3, then m2 when the tag is below 2, then m1
when the tag is below 1. Every later word contributes m1, m2, m3. -/
def decodeWords : Bool → List Nat → List ℚ
  | _, [] => []
  | true, w :: rest => m1 w :: m2 w :: m3 w :: decodeWords true rest
  | false, w :: rest =>
      let t := trigTag w
      if t = 3 then decodeWords false rest
      else
        (m3 w :: (if t < 2 then [m2 w] else []) ++ (if t < 1 then [m1 w] else []))
          ++ decodeWords true rest

/-- ProcessTraceData: length check, sync-byte check, then the word loop over
the bytes after the sync byte. The error outcome is the value assigned to the
sticky error field. -/
def processTraceData (data : List Nat) : Except AdcError (List ℚ) :=
  if data.length < 4 ∨ data.length % 4 ≠ 0 then .error (.badDataLength data.length)
  else
    match data with
    | [] => .error (.badDataLength 0)
    | b :: rest =>
        if b ≠ 0xac then .error (.badSyncByte b)
        else .ok (decodeWords false (beWords rest))

/-! ### Trace read (TraceData in usart.go). -/

/-- The bounded read length TraceData computes: the requested sample count
rounded up to a multiple of 3, times 4/3, plus 256 spare, capped by the
pending byte count. -/
def traceReadLen (samples pending : Nat) : Nat :=
  min pending ((if samples % 3 ≠ 0 then samples + (3 - samples % 3) else samples) * 4 / 3 + 256)

/-! ### ADC controller state (the Adc struct of usart.go).

Each operation is a function from the controller state and the outcomes the
device would answer to the new state, the returned value and the transcript of
register accesses it performed. A register access at the memory layer is one
transcript event here; its own framing is the doRead/doWrite model above. -/

/-- Register addresses from usart.go. -/
def addrGain : Nat := 0
def addrSettings : Nat := 1
def addrAdcData : Nat := 3
def addrOffset : Nat := 26
def addrSamples : Nat := 16
def addrBytestorx : Nat := 18

/-- A register access performed by an ADC operation. -/
inductive AdcIo where
  | read (addr : Nat)
  | write (addr : Nat)
  deriving DecidableEq, Repr

/-- The mutable fields of the Adc struct the operations below touch. -/
structure AdcState where
  err : Option AdcError
  hwMaxSamples : Nat
  deriving DecidableEq, Repr

/-- Gain getter: short-circuits on a latched error, else reads the gain
register (devRead being the outcome the device answers). -/
def adcGain (st : AdcState) (devRead : Except AdcError Nat) :
    AdcState × Nat × List AdcIo :=
  match st.err with
  | some _ => (st, 0, [])
  | none =>
      match devRead with
      | .error e => ({ st with err := some e }, 0, [.read addrGain])
      | .ok g => (st, g, [.read addrGain])

/-- SetGain: short-circuits on a latched error, rejects gain above 78, else
writes the gain register. -/
def adcSetGain (st : AdcState) (gain : Nat) (devWrite : Except AdcError Unit) :
    AdcState × List AdcIo :=
  match st.err with
  | some _ => (st, [])
  | none =>
      if gain > 78 then ({ st with err := some (.invalidGain gain) }, [])
      else
        match devWrite with
        | .error e => ({ st with err := some e }, [.write addrGain])
        | .ok _ => (st, [.write addrGain])

/-- TriggerOffset getter: short-circuits on a latched error. -/
def adcTriggerOffset (st : AdcState) (devRead : Except AdcError Nat) :
    AdcState × Nat × List AdcIo :=
  match st.err with
  | some _ => (st, 0, [])
  | none =>
      match devRead with
      | .error e => ({ st with err := some e }, 0, [.read addrOffset])
      | .ok v => (st, v, [.read addrOffset])

/-- SetTriggerOffset: short-circuits on a latched error. -/
def adcSetTriggerOffset (st : AdcState) (devWrite : Except AdcError Unit) :
    AdcState × List AdcIo :=
  match st.err with
  | some _ => (st, [])
  | none =>
      match devWrite with
      | .error e => ({ st with err := some e }, [.write addrOffset])
      | .ok _ => (st, [.write addrOffset])

/-- settings getter: short-circuits on a latched error. -/
def adcSettings (st : AdcState) (devRead : Except AdcError Nat) :
    AdcState × Nat × List AdcIo :=
  match st.err with
  | some _ => (st, 0, [])
  | none =>
      match devRead with
      | .error e => ({ st with err := some e }, 0, [.read addrSettings])
      | .ok v => (st, v, [.read addrSettings])

/-- numSamples getter: short-circuits on a latched error. -/
def adcNumSamples (st : AdcState) (devRead : Except AdcError Nat) :
    AdcState × Nat × List AdcIo :=
  match st.err with
  | some _ => (st, 0, [])
  | none =>
      match devRead with
      | .error e => ({ st with err := some e }, 0, [.read addrSamples])
      | .ok v => (st, v, [.read addrSamples])

/-- setNumSamples: short-circuits on a latched error. -/
def adcSetNumSamples (st : AdcState) (devWrite : Except AdcError Unit) :
    AdcState × List AdcIo :=
  match st.err with
  | some _ => (st, [])
  | none =>
      match devWrite with
      | .error e => ({ st with err := some e }, [.write addrSamples])
      | .ok _ => (st, [.write addrSamples])

/-- SetTotalSamples as the source writes it: the range check runs before any
look at the latched error, so an out-of-range argument assigns a fresh error
over whatever was latched; an in-range argument falls through to the guarded
setNumSamples. -/
def adcSetTotalSamples (st : AdcState) (samples : Nat)
    (devWrite : Except AdcError Unit) : AdcState × List AdcIo :=
  if samples > st.hwMaxSamples then
    ({ st with err := some (.samplesOutsideLimit samples st.hwMaxSamples) }, [])
  else adcSetNumSamples st devWrite

/-- Outcomes the device answers during one TraceData call: the pending-byte
register, the sample-count register, and the bulk data read (a byte stream
indexed by position, for a requested length). -/
structure TraceDevice where
  readPending : Except AdcError Nat
  readSamples : Except AdcError Nat
  readData : Nat → Except AdcError (Nat → Nat)

/-- The tail of TraceData once the pending and sample counts are in hand: the
bounded data read, the decode, and the truncation to the sample count, the
outcome of each overwriting the error field. -/
def adcTraceDecode (st : AdcState) (samples toRead : Nat)
    (dataRes : Except AdcError (Nat → Nat)) : AdcState × List ℚ × List AdcIo :=
  let io := [AdcIo.read addrBytestorx, .read addrSamples, .read addrAdcData]
  match dataRes with
  | .error e => ({ st with err := some e }, [], io)
  | .ok bytes =>
      match processTraceData (List.map bytes (List.range toRead)) with
      | .error e => ({ st with err := some e }, [], io)
      | .ok ms => ({ st with err := none }, ms.take samples, io)

/-- TraceData as the source writes it: the pending-byte read runs before any
look at the latched error and its outcome is assigned to the error field,
then a zero pending count returns no data; otherwise the sample count is
read and the decode tail follows unconditionally. -/
def adcTraceData (st : AdcState) (dev : TraceDevice) :
    AdcState × List ℚ × List AdcIo :=
  match dev.readPending with
  | .error e => ({ st with err := some e }, [], [.read addrBytestorx])
  | .ok pending =>
      if pending = 0 then ({ st with err := none }, [], [.read addrBytestorx])
      else
        let samples := match dev.readSamples with | .ok n => n | .error _ => 0
        adcTraceDecode st samples (traceReadLen samples pending)
          (dev.readData (traceReadLen samples pending))

/-! ### Capture orchestration loop (NewCapture in viewer/server.go).

The loop body is driven by what the subsystems answer in each iteration;
those answers are the input stream. One iteration checks the latched ADC
error, generates a plaintext, arms, writes the plaintext, waits for the
trigger, reads the ciphertext response and the trace, and either appends one
trace, retries, or aborts. -/

/-- Orchestrator-level errors, distinguished by an opaque code. -/
structure CapError where
  code : Nat
  deriving DecidableEq, Repr

/-- What the subsystems answer during one loop iteration. -/
structure IterBehavior where
  sticky : Option CapError
  ptGen : Except CapError (List Nat)
  writePt : Except CapError Unit
  timedOut : Bool
  response : Except CapError (List Nat)
  measurements : List ℚ

/-- One iteration of the NewCapture loop in source order: latched-error
check, plaintext generation, plaintext write, trigger wait (a timeout
retries), response read, trace read (an empty result retries). none means
the iteration appended nothing and the loop continues. -/
def capStep (key : List Nat) (b : IterBehavior) : Except CapError (Option Trace) :=
  match b.sticky with
  | some e => .error e
  | none =>
      match b.ptGen with
      | .error e => .error e
      | .ok pt =>
          match b.writePt with
          | .error e => .error e
          | .ok _ =>
              if b.timedOut then .ok none
              else
                match b.response with
                | .error e => .error e
                | .ok ct =>
                    if b.measurements.length = 0 then .ok none
                    else .ok (some ⟨key, pt, ct, b.measurements⟩)

/-- The NewCapture loop: run iterations until the capture holds numTraces
traces, with fuel bounding the number of iterations observed (none = still
looping when the fuel ran out). -/
def captureLoop (key : List Nat) (behav : Nat → IterBehavior) (numTraces : Nat) :
    Nat → Nat → List Trace → Option (Except CapError (List Trace))
  | iter, fuel, cap =>
      if cap.length ≥ numTraces then some (.ok cap)
      else
        match fuel with
        | 0 => none
        | fuel + 1 =>
            match capStep key (behav iter) with
            | .error e => some (.error e)
            | .ok none => captureLoop key behav numTraces (iter + 1) fuel cap
            | .ok (some t) => captureLoop key behav numTraces (iter + 1) fuel (cap ++ [t])

/-- NewCapture: the loop starting from the empty capture. -/
def newCapture (key : List Nat) (behav : Nat → IterBehavior) (numTraces fuel : Nat) :
    Option (Except CapError (List Trace)) :=
  captureLoop key behav numTraces 0 fuel []

/-! ## Theorems -/

/-- C1: ProcessTraceData decodes the buffer 0xAC + big-endian word 0x40300801
(trigger tag 1, samples 1, 2, 3 in bit order). The claim and the source
comment above the loop say the first triggered word keeps its last two
samples m2, m3 in order; the code appends m3 before m2, so the call returns
the bits[20:30) sample 3/1024 - 1/2 before the bits[10:20) sample
2/1024 - 1/2. -/
theorem C1_first_word_reversed :
    processTraceData [0xac, 0x40, 0x30, 0x08, 0x01, 0x00, 0x00, 0x00] =
      .ok [m3 0x40300801, m2 0x40300801] ∧
    trigTag 0x40300801 = 1 ∧
    m2 0x40300801 = (2 : ℚ) / 1024 - 1 / 2 ∧ m3 0x40300801 = (3 : ℚ) / 1024 - 1 / 2 := by
  refine ⟨rfl, rfl, ?_, ?_⟩ <;> norm_num [m2, m3, sampleVal]

/-- With every poll answering not-ready, the counter of the retry loop never
reaches its bound: it starts at 0, the guard is attempts below 5, and the
loop decrements. -/
theorem programPollLoop_stuck (fuel : Nat) : ∀ (attempts : Int), attempts ≤ 0 →
    ∀ k, programPollLoop (fun _ => false) attempts k fuel = none := by
  induction fuel with
  | zero => intro attempts _ k; rfl
  | succ n ih =>
      intro attempts h k
      unfold programPollLoop
      rw [if_pos (by omega)]
      exact ih (attempts - 1) (by omega) (k + 1)

/-- C4: the poll phase of Fpga.Program never terminates on a device that is
never programmed: for every number of observed iterations the loop is still
running, so the claimed bound of 5 attempts, the unconditional
exit-programming request and the ProgrammingFailed outcome are unreachable on
this input. The claim describes the intended bounded retry; the code
decrements the counter it compares against 5 and can only leave the loop
through the ready break. -/
theorem C4_fpga_poll_never_stops (fuel : Nat) :
    programPoll (fun _ => false) fuel = none :=
  programPollLoop_stuck fuel 0 (by omega) 0

/-- C5: the memory protocol selects control framing exactly below 48 payload
bytes and bulk framing from 48 bytes on, for reads and writes alike; the
control write carries header and payload in one control-OUT, the bulk write
sends the header by control-OUT and the payload on the bulk pipe. -/
theorem C5_framing_threshold (addr len : Nat) (data : List Nat) (validate : Bool)
    (mask : Option (List Nat)) (rb : List Nat) :
    (len < 48 → doReadOps addr len =
      [.controlOut reqMemReadCtrl (addrBlock len addr), .controlIn reqMemReadCtrl len]) ∧
    (48 ≤ len → doReadOps addr len =
      [.controlOut reqMemReadBulk (addrBlock len addr), .bulkIn len]) ∧
    (data.length < 48 → (doWriteRun addr data validate mask rb).1 =
      [.controlOut reqMemWriteCtrl (addrBlock data.length addr ++ data)] ++
        (if validate then doReadOps addr data.length else [])) ∧
    (48 ≤ data.length → (doWriteRun addr data validate mask rb).1 =
      [.controlOut reqMemWriteBulk (addrBlock data.length addr), .bulkOut data] ++
        (if validate then doReadOps addr data.length else [])) := by
  refine ⟨fun h => ?_, fun h => ?_, fun h => ?_, fun h => ?_⟩
  · simp [doReadOps, h]
  · simp [doReadOps, Nat.not_lt.mpr h]
  · cases validate <;> simp [doWriteRun, h]
  · cases validate <;> simp [doWriteRun, Nat.not_lt.mpr h]

/-- C5 witness: the boundary, length 47 frames as control and length 48 as
bulk. -/
theorem C5_framing_threshold_witness :
    doReadOps 5 47 =
      [.controlOut reqMemReadCtrl (addrBlock 47 5), .controlIn reqMemReadCtrl 47] ∧
    doReadOps 5 48 =
      [.controlOut reqMemReadBulk (addrBlock 48 5), .bulkIn 48] :=
  ⟨(C5_framing_threshold 5 47 [] false none []).1 (by omega),
   (C5_framing_threshold 5 48 [] false none []).2.1 (by omega)⟩

/-- C6: a verified write re-reads the same address and length, and fails with
a verification error exactly when the compared buffers differ, both buffers
being masked byte-for-byte first when a mask of matching length is supplied. -/
theorem C6_write_verify (addr : Nat) (data rb m : List Nat) (mask : Option (List Nat))
    (hm : m.length = data.length) :
    ((doWriteRun addr data true mask rb).1 =
      (if data.length < 48 then
        [UsbOp.controlOut reqMemWriteCtrl (addrBlock data.length addr ++ data)]
       else [.controlOut reqMemWriteBulk (addrBlock data.length addr), .bulkOut data]) ++
        doReadOps addr data.length) ∧
    ((doWriteRun addr data true mask rb).2 = verifyCheck data rb mask) ∧
    (verifyCheck data rb none = .ok () ↔ data = rb) ∧
    (verifyCheck data rb none = .error .verification ↔ data ≠ rb) ∧
    (verifyCheck data rb (some m) = .ok () ↔
      List.zipWith Nat.land data m = List.zipWith Nat.land rb m) ∧
    (verifyCheck data rb (some m) = .error .verification ↔
      List.zipWith Nat.land data m ≠ List.zipWith Nat.land rb m) := by
  refine ⟨?_, ?_, ?_, ?_, ?_, ?_⟩
  · by_cases h : data.length < 48 <;> simp [doWriteRun, h]
  · by_cases h : data.length < 48 <;> simp [doWriteRun, h]
  · by_cases h : data = rb <;> simp [verifyCheck, h]
  · by_cases h : data = rb <;> simp [verifyCheck, h]
  · by_cases h : List.zipWith Nat.land data m = List.zipWith Nat.land rb m <;>
      simp [verifyCheck, hm, h]
  · by_cases h : List.zipWith Nat.land data m = List.zipWith Nat.land rb m <;>
      simp [verifyCheck, hm, h]

/-- C6 witness: written aa bb cc against read-back aa dd cc fails without a
mask and succeeds under mask ff 00 ff, which masks the differing byte out. -/
theorem C6_write_verify_witness :
    verifyCheck [0xaa, 0xbb, 0xcc] [0xaa, 0xdd, 0xcc] none = .error .verification ∧
    verifyCheck [0xaa, 0xbb, 0xcc] [0xaa, 0xdd, 0xcc] (some [0xff, 0x00, 0xff]) = .ok () := by
  have h := C6_write_verify 0 [0xaa, 0xbb, 0xcc] [0xaa, 0xdd, 0xcc]
    [0xff, 0x00, 0xff] none rfl
  exact ⟨h.2.2.2.1.mpr (by decide), h.2.2.2.2.1.mpr (by decide)⟩

/-- C9: TraceData never delivers more than the configured sample count: the
bounded read length is min(pending, ceil(samples/3)*4 + 256), a zero
pending count yields no data, and the decoded measurements are truncated to
the sample count, never padded (the result is a prefix of the decode). -/
theorem C9_trace_read_bounds (st : AdcState) (dev : TraceDevice) (samples pending : Nat) :
    (traceReadLen samples pending = min pending (((samples + 2) / 3) * 4 + 256)) ∧
    (dev.readPending = .ok 0 → (adcTraceData st dev).2.1 = []) ∧
    ((adcTraceData st dev).2.1.length ≤
      match dev.readSamples with | .ok n => n | .error _ => 0) ∧
    (∀ (n r : Nat) (bytes : Nat → Nat) (ms : List ℚ),
      processTraceData (List.map bytes (List.range r)) = .ok ms →
      (adcTraceDecode st n r (.ok bytes)).2.1 = ms.take n) := by
  refine ⟨?_, ?_, ?_, ?_⟩
  · have h1 : (if samples % 3 ≠ 0 then samples + (3 - samples % 3) else samples) * 4 / 3
        = ((samples + 2) / 3) * 4 := by
      split <;> omega
    unfold traceReadLen
    rw [h1]
  · intro h
    unfold adcTraceData
    rw [h]
    simp
  · have hdec : ∀ (n r : Nat) (ex : Except AdcError (Nat → Nat)),
        (adcTraceDecode st n r ex).2.1.length ≤ n := by
      intro n r ex
      unfold adcTraceDecode
      split
      · simp
      · split
        · simp
        · simp only [List.length_take]
          omega
    unfold adcTraceData
    split
    · simp
    · split
      · simp
      · exact hdec _ _ _
  · intro n r bytes ms hms
    unfold adcTraceDecode
    simp [hms]

/-- C9 witness: a device with 4 pending bytes answering a sync byte and one
tag-0 word limited to 2 requested samples. -/
theorem C9_trace_read_bounds_witness :
    traceReadLen 2 4 = min 4 (((2 + 2) / 3) * 4 + 256) ∧
    (adcTraceData ⟨none, 1000⟩
      ⟨.ok 0, .ok 2, fun _ => .ok (fun _ => 0)⟩).2.1 = [] := by
  have h := C9_trace_read_bounds ⟨none, 1000⟩
    ⟨.ok 0, .ok 2, fun _ => .ok (fun _ => 0)⟩ 2 4
  exact ⟨h.1, h.2.1 rfl⟩

/-- C10: a buffer shorter than 4 bytes or of length not a multiple of 4 makes
ProcessTraceData latch the length error and return no samples, and a trace
read whose pending count is below the bounded read length and not a multiple
of 4 therefore fails entirely: the sticky error is set and no measurements
are returned. -/
theorem C10_partial_buffer_rejected (data : List Nat)
    (hdata : data.length < 4 ∨ data.length % 4 ≠ 0)
    (st : AdcState) (dev : TraceDevice) (pending samples : Nat) (bytes : Nat → Nat)
    (hp : dev.readPending = .ok pending) (hs : dev.readSamples = .ok samples)
    (hd : dev.readData pending = .ok bytes)
    (hmod : pending % 4 ≠ 0) (hlt : pending < ((samples + 2) / 3) * 4 + 256) :
    processTraceData data = .error (.badDataLength data.length) ∧
    (adcTraceData st dev).1.err = some (.badDataLength pending) ∧
    (adcTraceData st dev).2.1 = [] := by
  have hlen : ∀ d : List Nat, d.length < 4 ∨ d.length % 4 ≠ 0 →
      processTraceData d = .error (.badDataLength d.length) := by
    intro d hd2
    unfold processTraceData
    rw [if_pos (by omega)]
  have htr : traceReadLen samples pending = pending := by
    have h9 := (C9_trace_read_bounds st dev samples pending).1
    omega
  have hml : (List.map bytes (List.range pending)).length = pending := by simp
  refine ⟨hlen data hdata, ?_⟩
  unfold adcTraceData
  simp only [hp]
  rw [if_neg (by omega)]
  simp only [hs, htr]
  unfold adcTraceDecode
  simp only [hd, hlen (List.map bytes (List.range pending)) (by rw [hml]; omega), hml]
  exact ⟨trivial, trivial⟩

/-- C10 witness: 6 pending bytes (below the bound, not a multiple of 4) with
a well-formed sync byte still fail entirely. -/
theorem C10_partial_buffer_rejected_witness :
    processTraceData [0xac, 0, 0, 0, 0, 0] = .error (.badDataLength 6) ∧
    (adcTraceData ⟨none, 1000⟩
      ⟨.ok 6, .ok 3, fun _ => .ok (fun _ => 0xac)⟩).1.err =
        some (.badDataLength 6) := by
  have h := C10_partial_buffer_rejected [0xac, 0, 0, 0, 0, 0] (by simp)
    ⟨none, 1000⟩ ⟨.ok 6, .ok 3, fun _ => .ok (fun _ => 0xac)⟩ 6 3 (fun _ => 0xac)
    rfl rfl rfl (by omega) (by omega)
  exact ⟨h.1, h.2.1⟩

/-- C3 counterexample: with an I/O error already latched and hwMaxSamples 10,
calling SetTotalSamples 11 replaces the latched error by the fresh
out-of-range error, because the range check runs before the error guard. The
claim says a latched error is never replaced by a different one. -/
theorem C3_sticky_error_counterexample :
    (adcSetTotalSamples ⟨some AdcError.ioFailure, 10⟩ 11 (.ok ())).1.err =
      some (AdcError.samplesOutsideLimit 11 10) ∧
    (⟨some AdcError.ioFailure, 10⟩ : AdcState).err ≠
      some (AdcError.samplesOutsideLimit 11 10) := by
  decide

/-- C3 (amended): once the sticky error is set, every modeled operation except
SetTotalSamples and TraceData leaves the state unchanged, performs no device
access and returns the zero value. SetTotalSamples checks its argument before
the error guard: in range it is a no-op, out of range it overwrites the
latched error with the fresh out-of-range error. TraceData performs its
device reads regardless and overwrites the error field with their outcome,
clearing it on a successful empty read. -/
theorem C3_sticky_error_amended (st : AdcState) (e : AdcError) (h : st.err = some e)
    (gain samples : Nat) (r : Except AdcError Nat) (w : Except AdcError Unit)
    (dev : TraceDevice) :
    adcGain st r = (st, 0, []) ∧
    adcSetGain st gain w = (st, []) ∧
    adcTriggerOffset st r = (st, 0, []) ∧
    adcSetTriggerOffset st w = (st, []) ∧
    adcSettings st r = (st, 0, []) ∧
    adcNumSamples st r = (st, 0, []) ∧
    adcSetNumSamples st w = (st, []) ∧
    (samples ≤ st.hwMaxSamples → adcSetTotalSamples st samples w = (st, [])) ∧
    (st.hwMaxSamples < samples →
      (adcSetTotalSamples st samples w).1.err =
        some (.samplesOutsideLimit samples st.hwMaxSamples)) ∧
    (dev.readPending = .ok 0 →
      adcTraceData st dev = ({ st with err := none }, [], [.read addrBytestorx])) := by
  refine ⟨?_, ?_, ?_, ?_, ?_, ?_, ?_, ?_, ?_, ?_⟩
  · simp [adcGain, h]
  · simp [adcSetGain, h]
  · simp [adcTriggerOffset, h]
  · simp [adcSetTriggerOffset, h]
  · simp [adcSettings, h]
  · simp [adcNumSamples, h]
  · simp [adcSetNumSamples, h]
  · intro hs
    simp [adcSetTotalSamples, Nat.not_lt.mpr hs, adcSetNumSamples, h]
  · intro hs
    simp [adcSetTotalSamples, hs]
  · intro hp
    simp [adcTraceData, hp]

/-- C3 witness: a controller with a latched I/O error and limit 10 is left
untouched by a gain read and by an in-range SetTotalSamples. -/
theorem C3_sticky_error_amended_witness :
    adcGain ⟨some AdcError.ioFailure, 10⟩ (.ok 5) =
      (⟨some AdcError.ioFailure, 10⟩, 0, []) ∧
    adcSetTotalSamples ⟨some AdcError.ioFailure, 10⟩ 5 (.ok ()) =
      (⟨some AdcError.ioFailure, 10⟩, []) := by
  have h := C3_sticky_error_amended ⟨some AdcError.ioFailure, 10⟩ AdcError.ioFailure
    rfl 5 5 (.ok 5) (.ok ()) ⟨.ok 0, .ok 0, fun _ => .ok fun _ => 0⟩
  exact ⟨h.1, h.2.2.2.2.2.2.2.1 (by decide)⟩

/-- Any trace an iteration appends carries the key the loop was given. -/
theorem capStep_key (key : List Nat) (b : IterBehavior) (t : Trace)
    (h : capStep key b = .ok (some t)) : t.key = key := by
  rcases b with ⟨sticky, ptg, wr, tmo, resp, ms⟩
  rcases sticky with _ | e
  · rcases ptg with e | pt
    · simp [capStep] at h
    · rcases wr with e | u
      · simp [capStep] at h
      · rcases tmo with _ | _
        · rcases resp with e | ct
          · simp [capStep] at h
          · by_cases hm : ms.length = 0
            · simp [capStep, hm] at h
            · simp [capStep, hm] at h
              rw [← h]
        · simp [capStep] at h
  · simp [capStep] at h

/-- A successful run of the capture loop ends with exactly the requested
number of traces, all carrying the given key, provided the accumulator
starts within the request and with that key. -/
theorem captureLoop_ok (key : List Nat) (behav : Nat → IterBehavior) (numTraces : Nat) :
    ∀ (fuel iter : Nat) (cap0 cap : List Trace),
      cap0.length ≤ numTraces → (∀ t ∈ cap0, t.key = key) →
      captureLoop key behav numTraces iter fuel cap0 = some (.ok cap) →
      cap.length = numTraces ∧ ∀ t ∈ cap, t.key = key := by
  intro fuel
  induction fuel with
  | zero =>
      intro iter cap0 cap hlen hkeys h
      by_cases hge : cap0.length ≥ numTraces
      · rw [captureLoop, if_pos hge] at h
        injection h with h1
        injection h1 with h2
        subst h2
        exact ⟨by omega, hkeys⟩
      · rw [captureLoop, if_neg hge] at h
        cases h
  | succ n ih =>
      intro iter cap0 cap hlen hkeys h
      by_cases hge : cap0.length ≥ numTraces
      · rw [captureLoop, if_pos hge] at h
        injection h with h1
        injection h1 with h2
        subst h2
        exact ⟨by omega, hkeys⟩
      · rw [captureLoop, if_neg hge] at h
        rcases hstep : capStep key (behav iter) with e | ot
        · simp only [hstep] at h
          cases h
        · rcases ot with _ | t
          · simp only [hstep] at h
            exact ih (iter + 1) cap0 cap hlen hkeys h
          · simp only [hstep] at h
            refine ih (iter + 1) (cap0 ++ [t]) cap ?_ ?_ h
            · simp
              omega
            · intro x hx
              rcases List.mem_append.1 hx with hx | hx
              · exact hkeys x hx
              · rw [List.mem_singleton.1 hx]
                exact capStep_key key (behav iter) t hstep

/-- C7: a successful NewCapture run returns exactly the requested number of
traces, each carrying the given key; an iteration whose trigger wait timed
out or whose trace read came back empty appends nothing and does not count
(the loop resumes on the same accumulator), while an iteration error aborts
the run with that error. -/
theorem C7_capture_orchestration (key : List Nat) (behav : Nat → IterBehavior)
    (numTraces fuel : Nat) (cap : List Trace)
    (h : newCapture key behav numTraces fuel = some (.ok cap)) :
    (cap.length = numTraces ∧ ∀ t ∈ cap, t.key = key) ∧
    (∀ iter f c, c.length < numTraces → capStep key (behav iter) = .ok none →
      captureLoop key behav numTraces iter (f + 1) c =
        captureLoop key behav numTraces (iter + 1) f c) ∧
    (∀ iter f c e, c.length < numTraces → capStep key (behav iter) = .error e →
      captureLoop key behav numTraces iter (f + 1) c = some (.error e)) ∧
    (∀ (b : IterBehavior) pt, b.sticky = none → b.ptGen = .ok pt → b.writePt = .ok () →
      b.timedOut = true → capStep key b = .ok none) ∧
    (∀ (b : IterBehavior) pt ct, b.sticky = none → b.ptGen = .ok pt → b.writePt = .ok () →
      b.timedOut = false → b.response = .ok ct → b.measurements = [] →
      capStep key b = .ok none) := by
  refine ⟨?_, ?_, ?_, ?_, ?_⟩
  · exact captureLoop_ok key behav numTraces fuel 0 [] cap (by simp) (by simp) h
  · intro iter f c hlt hstep
    rw [captureLoop, if_neg (by omega)]
    simp only [hstep]
  · intro iter f c e hlt hstep
    rw [captureLoop, if_neg (by omega)]
    simp only [hstep]
  · intro b pt h1 h2 h3 h4
    simp [capStep, h1, h2, h3, h4]
  · intro b pt ct h1 h2 h3 h4 h5 h6
    simp [capStep, h1, h2, h3, h4, h5, h6]

/-- C7 witness: one timed-out iteration followed by one successful iteration
still yields exactly the one requested trace, carrying the key. -/
theorem C7_capture_orchestration_witness :
    ([(⟨[9], [1], [2], [(1 : ℚ)]⟩ : Trace)] : List Trace).length = 1 ∧
    ∀ t ∈ ([(⟨[9], [1], [2], [(1 : ℚ)]⟩ : Trace)] : List Trace), t.key = [9] :=
  (C7_capture_orchestration [9]
    (fun i => if i = 0 then ⟨none, .ok [1], .ok (), true, .ok [2], [(1 : ℚ)]⟩
      else ⟨none, .ok [1], .ok (), false, .ok [2], [(1 : ℚ)]⟩)
    1 2 [⟨[9], [1], [2], [(1 : ℚ)]⟩] rfl).1

/-- Every 6-bit group decodes back to itself through the alphabet. -/
theorem b64Val_b64Char : ∀ s : Nat, s < 64 → b64Val (b64Char s) = some s := by
  decide

/-- No alphabet character is the padding character. -/
theorem b64Char_ne_pad : ∀ s : Nat, s < 64 → b64Char s ≠ '=' := by
  decide

/-- Base64 round-trip: decoding an encoded byte list returns the list. -/
theorem b64_roundtrip : ∀ (l : List Nat), (∀ b ∈ l, b < 256) →
    b64Dec (b64Enc l) = some l := by
  intro l
  induction l using b64Enc.induct with
  | case1 b1 b2 b3 rest ih =>
      intro hl
      have h1 : b1 < 256 := hl b1 (by simp)
      have h2 : b2 < 256 := hl b2 (by simp)
      have h3 : b3 < 256 := hl b3 (by simp)
      have ihr := ih (fun b hb => hl b (by simp [hb]))
      have e1 := b64Val_b64Char (b1 / 4) (by omega)
      have e2 := b64Val_b64Char (b1 % 4 * 16 + b2 / 16) (by omega)
      have e3 := b64Val_b64Char (b2 % 16 * 4 + b3 / 64) (by omega)
      have e4 := b64Val_b64Char (b3 % 64) (by omega)
      have n3 := b64Char_ne_pad (b2 % 16 * 4 + b3 / 64) (by omega)
      have n4 := b64Char_ne_pad (b3 % 64) (by omega)
      simp [b64Enc, b64Dec, e1, e2, e3, e4, n3, n4, ihr]
      omega
  | case2 b1 b2 =>
      intro hl
      have h1 : b1 < 256 := hl b1 (by simp)
      have h2 : b2 < 256 := hl b2 (by simp)
      have e1 := b64Val_b64Char (b1 / 4) (by omega)
      have e2 := b64Val_b64Char (b1 % 4 * 16 + b2 / 16) (by omega)
      have e3 := b64Val_b64Char (b2 % 16 * 4) (by omega)
      have n3 := b64Char_ne_pad (b2 % 16 * 4) (by omega)
      simp [b64Enc, b64Dec, e1, e2, e3, n3]
      omega
  | case3 b1 =>
      intro hl
      have h1 : b1 < 256 := hl b1 (by simp)
      have e1 := b64Val_b64Char (b1 / 4) (by omega)
      have e2 := b64Val_b64Char (b1 % 4 * 16) (by omega)
      simp [b64Enc, b64Dec, e1, e2]
      omega
  | case4 =>
      intro _
      rfl

/-- A list of number nodes decodes back to its values. -/
theorem decodeNums_map : ∀ qs : List ℚ, decodeNums (qs.map Jval.num) = some qs := by
  intro qs
  induction qs with
  | nil => rfl
  | cons q rest ih => simp [decodeNums, ih]

/-- One trace record round-trips when its byte fields hold bytes. -/
theorem decodeTrace_encodeTrace (t : Trace)
    (hk : ∀ b ∈ t.key, b < 256) (hp : ∀ b ∈ t.pt, b < 256)
    (hc : ∀ b ∈ t.ct, b < 256) :
    decodeTrace (encodeTrace t) = some t := by
  rw [encodeTrace, decodeTrace]
  rw [b64_roundtrip t.key hk, b64_roundtrip t.pt hp, b64_roundtrip t.ct hc,
    decodeNums_map]

/-- C8: saving a capture and loading it back returns the identical capture,
field for field, whenever the key, plaintext and ciphertext fields hold
bytes; measurements compare by exact value. -/
theorem C8_save_load_roundtrip (c : Capture)
    (h : ∀ t ∈ c, (∀ b ∈ t.key, b < 256) ∧ (∀ b ∈ t.pt, b < 256) ∧
      (∀ b ∈ t.ct, b < 256)) :
    LoadCaptureIo (SaveIo c) = some c := by
  rw [SaveIo, LoadCaptureIo]
  induction c with
  | nil => rfl
  | cons t rest ih =>
      have ht := h t (by simp)
      rw [List.map_cons, decodeTraces,
        decodeTrace_encodeTrace t ht.1 ht.2.1 ht.2.2,
        ih (fun x hx => h x (by simp [hx]))]

/-- C8 witness: the capture of the repository test round-trips, with the
multi-element measurement list held exactly. -/
theorem C8_save_load_roundtrip_witness :
    LoadCaptureIo (SaveIo [⟨[1], [2], [3], [(9 : ℚ) / 2, 67 / 10]⟩]) =
      some [⟨[1], [2], [3], [(9 : ℚ) / 2, 67 / 10]⟩] :=
  C8_save_load_roundtrip [⟨[1], [2], [3], [(9 : ℚ) / 2, 67 / 10]⟩]
    (by intro t ht; simp at ht; simp [ht])

/-- The candidate list holds exactly the pairs of the searched range. -/
theorem mem_clkCandidates (inpFreq : Nat) (p : Nat × Nat) :
    p ∈ clkCandidates inpFreq ↔ clkInRange inpFreq p := by
  rcases p with ⟨mul, div⟩
  simp only [clkCandidates, clkInRange, List.mem_flatMap, List.mem_map,
    List.mem_range'_1, Prod.mk.injEq]
  constructor
  · rintro ⟨m, hm, d, hd, he1, he2⟩
    subst he1
    subst he2
    omega
  · rintro ⟨h1, h2, h3, h4⟩
    exact ⟨mul, by omega, div, by omega, rfl, rfl⟩

/-- The candidate list is strictly increasing in the ascending-multiplier,
ascending-divider order. -/
theorem pairwise_clkCandidates (inpFreq : Nat) :
    (clkCandidates inpFreq).Pairwise lexLt := by
  rw [clkCandidates, List.pairwise_flatMap]
  constructor
  · intro m _
    rw [List.pairwise_map]
    exact (List.pairwise_lt_range' 1 (clkMaxDiv inpFreq - 1)).imp
      (fun h => Or.inr ⟨rfl, h⟩)
  · exact (List.pairwise_lt_range' 2 255).imp
      (by
        intro a b hab
        intro x hx y hy
        simp only [List.mem_map] at hx hy
        rcases hx with ⟨d1, _, rfl⟩
        rcases hy with ⟨d2, _, rfl⟩
        exact Or.inl hab)

/-- The fold of the search preserves the first-minimum invariant along a
sorted candidate list. -/
theorem clkFold_inv (freq inpFreq : Nat) :
    ∀ (l seen : List (Nat × Nat)) (acc : (Nat × Nat) × Option Nat),
      clkInv freq inpFreq seen acc →
      (seen ++ l).Pairwise lexLt →
      clkInv freq inpFreq (seen ++ l) (l.foldl (clkStep freq inpFreq) acc) := by
  intro l
  induction l with
  | nil =>
      intro seen acc h _
      simpa using h
  | cons p rest ih =>
      intro seen acc h hp
      have hcross : ∀ x ∈ seen, lexLt x p := by
        intro x hx
        exact (List.pairwise_append.1 hp).2.2 x hx p (by simp)
      have hstep : clkInv freq inpFreq (seen ++ [p]) (clkStep freq inpFreq acc p) := by
        rcases acc with ⟨best, low⟩
        rcases low with _ | low
        · have hseen : seen = [] := h
          subst hseen
          simp only [clkStep]
          refine ⟨by simp, rfl, ?_, ?_⟩
          · intro q hq
            simp at hq
            subst hq
            exact le_refl _
          · intro q hq _
            simp at hq
            subst hq
            exact Or.inl rfl
        · rcases h with ⟨hmem, herr, hmin, hfirst⟩
          simp only [clkStep]
          by_cases he : clkErr freq inpFreq p.1 p.2 < low
          · rw [if_pos he]
            refine ⟨by simp, rfl, ?_, ?_⟩
            · intro q hq
              rcases List.mem_append.1 hq with hq | hq
              · exact le_of_lt (lt_of_lt_of_le he (hmin q hq))
              · rw [List.mem_singleton.1 hq]
            · intro q hq hqe
              rcases List.mem_append.1 hq with hq | hq
              · exact absurd hqe (by have := hmin q hq; omega)
              · exact Or.inl (List.mem_singleton.1 hq).symm
          · rw [if_neg he]
            refine ⟨List.mem_append_left _ hmem, herr, ?_, ?_⟩
            · intro q hq
              rcases List.mem_append.1 hq with hq | hq
              · exact hmin q hq
              · rw [List.mem_singleton.1 hq]
                omega
            · intro q hq hqe
              rcases List.mem_append.1 hq with hq | hq
              · exact hfirst q hq hqe
              · rw [List.mem_singleton.1 hq]
                exact Or.inr (hcross best hmem)
      have hrest := ih (seen ++ [p]) (clkStep freq inpFreq acc p) hstep
        (by rw [List.append_assoc]; simpa using hp)
      rw [List.append_assoc] at hrest
      simpa using hrest

set_option maxRecDepth 4000 in
/-- C2 counterexample: at targetFreq 1000000 and inputFreq 500000 the claimed
divider bound is min(256, 1) = 1, so the claimed range is nonempty, yet the
source loop (divider strictly below the bound) searches nothing and returns
the pair (0, 0), which lies outside the claimed multiplier and divider
ranges. -/
theorem C2_clkgen_counterexample :
    calcClkGenMulDiv 1000000 500000 = (0, 0) ∧
    clkMaxDivClaim 500000 = 1 ∧
    ¬ clkInRangeClaim 500000 (calcClkGenMulDiv 1000000 500000) := by
  refine ⟨by decide, by decide, ?_⟩
  intro h
  rw [clkInRangeClaim, show calcClkGenMulDiv 1000000 500000 = (0, 0) from by decide] at h
  exact absurd h.1 (by decide)

/-- C2 (amended): when the divider range of the source is nonempty (clkMaxDiv
at least 2), calcClkGenMulDiv returns a pair of the searched range --
multiplier in [2,256], divider in [1, clkMaxDiv-1], the divider loop bound
being strict -- of minimal error |freq - (inpFreq*mul)/div| under integer
division, and among the minimizers it is the first in ascending-multiplier,
ascending-divider order. -/
theorem C2_clkgen_search (freq inpFreq : Nat) (h2 : 2 ≤ clkMaxDiv inpFreq) :
    clkInRange inpFreq (calcClkGenMulDiv freq inpFreq) ∧
    (∀ q, clkInRange inpFreq q →
      clkErr freq inpFreq (calcClkGenMulDiv freq inpFreq).1
          (calcClkGenMulDiv freq inpFreq).2 ≤
        clkErr freq inpFreq q.1 q.2) ∧
    (∀ q, clkInRange inpFreq q →
      clkErr freq inpFreq q.1 q.2 =
        clkErr freq inpFreq (calcClkGenMulDiv freq inpFreq).1
          (calcClkGenMulDiv freq inpFreq).2 →
      calcClkGenMulDiv freq inpFreq = q ∨ lexLt (calcClkGenMulDiv freq inpFreq) q) := by
  have hinv := clkFold_inv freq inpFreq (clkCandidates inpFreq) [] ((0, 0), none)
    rfl (by simpa using pairwise_clkCandidates inpFreq)
  rw [List.nil_append] at hinv
  have hne : (2, 1) ∈ clkCandidates inpFreq := by
    rw [mem_clkCandidates]
    exact ⟨by omega, by omega, by omega, by omega⟩
  rcases hacc : ((clkCandidates inpFreq).foldl (clkStep freq inpFreq) ((0, 0), none)).2
    with _ | low
  · rw [clkInv, hacc] at hinv
    rw [hinv] at hne
    cases hne
  · rw [clkInv, hacc] at hinv
    rcases hinv with ⟨hmem, herr, hmin, hfirst⟩
    refine ⟨(mem_clkCandidates inpFreq _).1 hmem, ?_, ?_⟩
    · intro q hq
      have := hmin q ((mem_clkCandidates inpFreq q).2 hq)
      rw [calcClkGenMulDiv]
      omega
    · intro q hq hqe
      refine hfirst q ((mem_clkCandidates inpFreq q).2 hq) ?_
      rw [calcClkGenMulDiv] at hqe
      omega

/-- C2 witness: at the test frequencies 7.37 MHz from a 96 MHz input the
returned pair is in range and its error is at most the error of the
candidate (3, 39). -/
theorem C2_clkgen_search_witness :
    clkInRange 96000000 (calcClkGenMulDiv 7370000 96000000) ∧
    clkErr 7370000 96000000 (calcClkGenMulDiv 7370000 96000000).1
        (calcClkGenMulDiv 7370000 96000000).2 ≤
      clkErr 7370000 96000000 3 39 := by
  have h := C2_clkgen_search 7370000 96000000 (by decide)
  exact ⟨h.1, h.2.1 (3, 39) (by decide)⟩

end Gocw
